import Mathlib

/-!
Shallow embedding of `kedro/framework/cli/utils.py` (the click-based CLI
router of the kedro repository), together with theorems settling the
specification claims about it.

Modelling conventions:
* Python strings are Lean `String`s; a Python `None` help text is modelled
  as the empty string (both are falsy under `if cli.help:`).
* A `click.Command` object is identified by a numeric identity `Cmd`
  (only object identity matters to the claims).
* Python `dict`s that map command names to commands are modelled as
  insertion-ordered association lists `List (String × Cmd)`; dict
  comprehensions with an `if` clause become `List.filter`, and dict key
  views become `List.map Prod.fst`.
* Similarity ratios computed by `difflib` (Python floats of the form
  `2*m/t`) are modelled as exact fractions (`PyFloat`), with a rational
  interpretation `pyVal` used in theorem statements.
-/

/-- Identity of a `click.Command` object. Only identity matters: the claims
speak about "the command object from a given source". -/
structure Cmd where
  cid : Nat
deriving DecidableEq, Repr

/-- A `click.Group` (a "command group"): named mapping from command name to
command, plus help text, callback identity and parameter-name list.
`ghelp = ""` models Python `help=None` (both falsy). -/
structure CmdGroup where
  gname : String
  ghelp : String
  gcallback : Nat
  gparams : List String
  commands : List (String × Cmd)
deriving DecidableEq, Repr

/-- A `click.CommandCollection` as built by
`CommandCollection._merge_same_name_collections`: a named ordered list of
command groups with its own help/callback/params. -/
structure CmdCollection where
  cname : String
  chelp : String
  ccallback : Nat
  cparams : List String
  csources : List CmdGroup
deriving DecidableEq, Repr

/-- The command names of a group, in insertion order
(Python `cmd_group.commands.keys()`). -/
def namesG (g : CmdGroup) : List String :=
  g.commands.map Prod.fst

/-- `click.Group.get_command`: look a command up by name in one group
(first entry with that key, as in a Python dict). -/
def groupGetCommand (g : CmdGroup) (name : String) : Option Cmd :=
  (g.commands.find? (fun p => p.1 == name)).map Prod.snd

/-- `click.CommandCollection.get_command`: the first source (group) that
knows the name wins. -/
def collGetCommand (c : CmdCollection) (name : String) : Option Cmd :=
  c.csources.findSome? (fun g => groupGetCommand g name)

/-- Command-name listing of one collection; click returns the sorted set,
but every use in the modelled code is a membership test, for which the
plain concatenation is equivalent. -/
def collListCommands (c : CmdCollection) : List String :=
  c.csources.flatMap namesG

/-- Resolution across the router's source collections
(`click.CommandCollection.get_command` at the outer level): first
collection that knows the name wins. -/
def resolveCommand (colls : List CmdCollection) (name : String) : Option Cmd :=
  colls.findSome? (fun c => collGetCommand c name)

/-- One step of the reverse walk of `CommandCollection._dedupe_commands`:
`cmd_group.commands = {n: c for n, c in commands.items() if n not in seen_names}`
followed by `seen_names |= cmd_group.commands.keys()`. -/
def dedupeGroup (seen : List String) (g : CmdGroup) : CmdGroup × List String :=
  let kept := g.commands.filter (fun p => decide (p.1 ∉ seen))
  ({ g with commands := kept }, seen ++ kept.map Prod.fst)

/-- `for cmd_group in reversed(cli_collection.sources): ...` — the groups of
one collection are processed from the last to the first, threading the
`seen_names` set. -/
def dedupeGroups (gs : List CmdGroup) (seen : List String) : List CmdGroup × List String :=
  match gs with
  | [] => ([], seen)
  | g :: rest =>
      let (rest', seen') := dedupeGroups rest seen
      let (g', seen'') := dedupeGroup seen' g
      (g' :: rest', seen'')

/-- `for cli_collection in reversed(cli_collections): ...` — the collections
are processed from the last to the first, threading `seen_names`. -/
def dedupeColls (colls : List CmdCollection) (seen : List String) : List CmdCollection × List String :=
  match colls with
  | [] => ([], seen)
  | c :: rest =>
      let (rest', seen') := dedupeColls rest seen
      let (gs', seen'') := dedupeGroups c.csources seen'
      ({ c with csources := gs' } :: rest', seen'')

/-- The forward pass removing emptied groups:
`cli_collection.sources = [g for g in cli_collection.sources if g.commands]`. -/
def removeEmptyGroups (c : CmdCollection) : CmdCollection :=
  { c with csources := c.csources.filter (fun g => !g.commands.isEmpty) }

/-- `CommandCollection._dedupe_commands`: reverse dedup pass (last listed
source wins) followed by removal of emptied groups. -/
def dedupeCommands (colls : List CmdCollection) : List CmdCollection :=
  ((dedupeColls colls []).1).map removeEmptyGroups

/-- Worker for `firstSeen`: `acc` is the set of names already emitted. -/
def firstSeenAux (acc : List String) : List String → List String
  | [] => []
  | n :: rest =>
      if n ∈ acc then firstSeenAux acc rest
      else n :: firstSeenAux (n :: acc) rest

/-- The distinct group names in first-seen order, as produced by the keys of
the `defaultdict` in `CommandCollection._merge_same_name_collections`. -/
def firstSeen (l : List String) : List String :=
  firstSeenAux [] l

/-- `CommandCollection._merge_same_name_collections`: group the input
groups by name (insertion order), and build one `click.CommandCollection`
per distinct name whose help is the `"\n\n"`-join of the non-empty helps
and whose callback/params come from the first group with that name. -/
def mergeSameName (groups : List CmdGroup) : List CmdCollection :=
  (firstSeen (groups.map CmdGroup.gname)).map (fun n =>
    let cliList := groups.filter (fun g => g.gname == n)
    let helps := (cliList.filter (fun g => g.ghelp ≠ "")).map CmdGroup.ghelp
    { cname := n
      chelp := String.intercalate "\n\n" helps
      ccallback := ((cliList.head?).map CmdGroup.gcallback).getD 0
      cparams := ((cliList.head?).map CmdGroup.gparams).getD []
      csources := cliList })

/-- Python `str.strip()` (whitespace from both ends), written over the
character list so that it evaluates inside the kernel. -/
def pyStrip (s : String) : String :=
  ⟨((s.data.dropWhile Char.isWhitespace).reverse.dropWhile Char.isWhitespace).reverse⟩

/-- `split_node_names`: split on commas, ignoring commas enclosed by square
brackets.  Faithful rendering of the character loop over `to_split + ","`
with its `argument`/`match_state` state; `match_state` is an `Int` because
`]` may drive the Python counter negative. -/
def splitNodeNames (toSplit : String) : List String :=
  let step := fun (st : List String × List Char × Int) (c : Char) =>
    let (result, argument, ms) := st
    let ms := if c = '[' then ms + 1 else if c = ']' then ms - 1 else ms
    if c = ',' ∧ ms = 0 ∧ argument ≠ [] then
      (result ++ [pyStrip ⟨argument⟩], [], ms)
    else (result, argument ++ [c], ms)
  ((toSplit.data ++ [',']).foldl step ([], [], 0)).1

/-!
Model of the parts of Python's `difflib` used by `_suggest_cli_command`:
`SequenceMatcher` (constructed with `isjunk=None`, so the junk set is
empty; `autojunk=True`, so characters of a long second sequence may be
dropped from the index `b2j`) and `get_close_matches`.  Float ratios
`2*m/t` are modelled as exact fractions.
-/

/-- Number of occurrences of a character in a character list. -/
def countChar (s : List Char) (c : Char) : Nat :=
  (s.filter (fun d => d = c)).length

/-- The ascending list of positions of `c` in `b`
(one entry of `SequenceMatcher.b2j`). -/
def positionsIn (b : List Char) (c : Char) : List Nat :=
  (List.range b.length).filter (fun j => b.getD j ' ' = c)

/-- `SequenceMatcher.b2j` with the `autojunk` heuristic: when `b` has at
least 200 elements, characters occurring more than `len(b) // 100 + 1`
times are treated as popular and dropped from the index. -/
def b2jFun (b : List Char) (c : Char) : List Nat :=
  if 200 ≤ b.length ∧ b.length / 100 + 1 < (positionsIn b c).length then []
  else positionsIn b c

/-- State `(besti, bestj, bestsize)` of `find_longest_match`. -/
structure FlmState where
  besti : Nat
  bestj : Nat
  bestsize : Nat
deriving DecidableEq, Repr

/-- One row (`for j in b2j[a[i]]`) of the dynamic program inside
`find_longest_match`.  `j2len` is the previous row; returns the new row and
the updated best triple.  `k = j2len.get(j-1, 0) + 1`; Python's `j-1` at
`j = 0` is `-1`, never a dict key, hence the explicit zero case. -/
def flmRow (b2j : Char → List Nat) (a : List Char) (blo bhi i : Nat)
    (j2len : List (Nat × Nat)) (st : FlmState) : List (Nat × Nat) × FlmState :=
  let js := (b2j (a.getD i ' ')).filter (fun j => decide (blo ≤ j) && decide (j < bhi))
  js.foldl (fun (acc : List (Nat × Nat) × FlmState) j =>
    let prev := if j = 0 then 0 else ((acc.1, j2len).2.lookup (j - 1)).getD 0
    let k := prev + 1
    let st' := if k > acc.2.bestsize then FlmState.mk (i + 1 - k) (j + 1 - k) k else acc.2
    (acc.1 ++ [(j, k)], st')) ([], st)

/-- The first extension loop of `find_longest_match`: grow the match to the
left over equal (non-junk; the junk set is empty here) characters.  The
loop decreases `besti` by one each iteration, so it is structural
recursion on `besti`. -/
def extLeft (a b : List Char) (alo blo : Nat) : Nat → Nat → Nat → FlmState
  | 0, bestj, bestsize => FlmState.mk 0 bestj bestsize
  | besti + 1, bestj, bestsize =>
      if alo < besti + 1 ∧ blo < bestj ∧
          a.getD besti ' ' = b.getD (bestj - 1) ' ' then
        extLeft a b alo blo besti (bestj - 1) (bestsize + 1)
      else FlmState.mk (besti + 1) bestj bestsize

/-- The second extension loop of `find_longest_match`: grow the match to
the right over equal characters.  The loop runs at most
`ahi - (besti + bestsize)` times; the explicit fuel (instantiated with
`ahi` by the caller) therefore never runs out, the guard always stops the
loop first. -/
def extRightF (a b : List Char) (ahi bhi besti bestj : Nat) : Nat → Nat → Nat
  | 0, bestsize => bestsize
  | fuel + 1, bestsize =>
      if besti + bestsize < ahi ∧ bestj + bestsize < bhi ∧
          a.getD (besti + bestsize) ' ' = b.getD (bestj + bestsize) ' ' then
        extRightF a b ahi bhi besti bestj fuel (bestsize + 1)
      else bestsize

/-- `SequenceMatcher.find_longest_match(alo, ahi, blo, bhi)` with an empty
junk set: dynamic program over the rows `alo ≤ i < ahi`, then the two
extension loops (the junk-extension loops are no-ops since nothing is
junk). -/
def findLongestMatch (b2j : Char → List Nat) (a b : List Char)
    (alo ahi blo bhi : Nat) : FlmState :=
  let rows := List.range' alo (ahi - alo)
  let res := rows.foldl (fun (acc : List (Nat × Nat) × FlmState) i =>
      flmRow b2j a blo bhi i acc.1 acc.2) ([], FlmState.mk alo blo 0)
  let st := extLeft a b alo blo res.2.besti res.2.bestj res.2.bestsize
  FlmState.mk st.besti st.bestj (extRightF a b ahi bhi st.besti st.bestj ahi st.bestsize)

/-- Total size of the matching blocks of `get_matching_blocks` (the only
datum `ratio` needs: merging adjacent blocks preserves the total).  The
queue recursion of `get_matching_blocks` is rendered with explicit fuel;
each recursive call strictly shrinks `(ahi - alo) + (bhi - blo)`, so any
fuel above that sum computes the exact value. -/
def matchingTotalF (b2j : Char → List Nat) (a b : List Char) :
    Nat → Nat → Nat → Nat → Nat → Nat
  | 0, _, _, _, _ => 0
  | fuel + 1, alo, ahi, blo, bhi =>
    let st := findLongestMatch b2j a b alo ahi blo bhi
    if st.bestsize = 0 then 0
    else
      st.bestsize +
      (if alo < st.besti ∧ blo < st.bestj then
          matchingTotalF b2j a b fuel alo st.besti blo st.bestj
        else 0) +
      (if st.besti + st.bestsize < ahi ∧ st.bestj + st.bestsize < bhi then
          matchingTotalF b2j a b fuel (st.besti + st.bestsize) ahi
            (st.bestj + st.bestsize) bhi
        else 0)

/-- An exact value of the Python float `2*m/t` (or `1.0` when `t = 0`):
numerator, positive denominator.  All ratios produced by `difflib` on
command-name-sized strings are exact in double precision as far as the
comparisons the code performs go, so the exact fraction is the faithful
model. -/
structure PyFloat where
  num : Nat
  den : Nat
  den_pos : 0 < den

/-- The rational value of a `PyFloat`, used in theorem statements. -/
def pyVal (x : PyFloat) : ℚ :=
  (x.num : ℚ) / (x.den : ℚ)

/-- Python `x <= y` on these float values (cross multiplication). -/
def pyFloatLe (x y : PyFloat) : Bool :=
  decide (x.num * y.den ≤ y.num * x.den)

/-- Python `x < y` on these float values. -/
def pyFloatLt (x y : PyFloat) : Bool :=
  decide (x.num * y.den < y.num * x.den)

/-- Python `x == y` on these float values. -/
def pyFloatEqB (x y : PyFloat) : Bool :=
  decide (x.num * y.den = y.num * x.den)

/-- `_calculate_ratio(matches, length)`. -/
def calcRatio (m length : Nat) : PyFloat :=
  if h : length = 0 then ⟨1, 1, Nat.one_pos⟩
  else ⟨2 * m, length, Nat.pos_of_ne_zero h⟩

/-- `SequenceMatcher(None, a, b).ratio()`. -/
def ratioP (a b : String) : PyFloat :=
  let la := a.data.length
  let lb := b.data.length
  calcRatio (matchingTotalF (b2jFun b.data) a.data b.data (la + lb + 1) 0 la 0 lb)
    (la + lb)

/-- The `avail` loop of `quick_ratio`; its result equals the number of
elements of `a` matched against the multiset of elements of `b`. -/
def quickMatches (a b : List Char) : Nat :=
  (a.foldl (fun (acc : List (Char × Int) × Nat) c =>
    let numb := ((acc.1.lookup c).getD (countChar b c : Int))
    ((c, numb - 1) :: acc.1, if 0 < numb then acc.2 + 1 else acc.2)) ([], 0)).2

/-- `SequenceMatcher.quick_ratio()`. -/
def quickRatioP (a b : String) : PyFloat :=
  calcRatio (quickMatches a.data b.data) (a.data.length + b.data.length)

/-- `SequenceMatcher.real_quick_ratio()`. -/
def realQuickRatioP (a b : String) : PyFloat :=
  calcRatio (min a.data.length b.data.length) (a.data.length + b.data.length)

/-- Python comparison `(r1, s1) >= (r2, s2)` on `(float, str)` pairs:
lexicographic, floats compared by value, strings compared by code points
(Lean's `String` order coincides). -/
def pairGe (p q : PyFloat × String) : Bool :=
  pyFloatLt q.1 p.1 || (pyFloatEqB p.1 q.1 && !decide (p.2.data < q.2.data))

/-- The relation `pairGe` as a proposition, for the stable sort. -/
def PairGeP (p q : PyFloat × String) : Prop :=
  pairGe p q = true

instance instDecidableRelPairGeP : DecidableRel PairGeP :=
  fun p q => inferInstanceAs (Decidable (pairGe p q = true))

/-- `difflib.get_close_matches(word, possibilities, n, cutoff)`: keep the
candidates whose three ratio checks all reach the cutoff, order them as
`heapq.nlargest` does (descending `(ratio, candidate)` pairs, Python tuple
order, stable), and return the first `n` candidate strings.  A stable sort
by a total preorder has a unique result, so the stable insertion sort used
here produces exactly CPython's (stable) descending order. -/
def getCloseMatches (word : String) (possibilities : List String)
    (n : Nat) (cutoff : PyFloat) : List String :=
  let results := possibilities.filterMap (fun x =>
    if pyFloatLe cutoff (realQuickRatioP x word) ∧
        pyFloatLe cutoff (quickRatioP x word) ∧
        pyFloatLe cutoff (ratioP x word) then
      some (ratioP x word, x)
    else none)
  (((List.insertionSort PairGeP results).take n).map Prod.snd)

/-- Kernel-computable split of a character list at newline characters
(`"a\nb".splitlines`-style, no final empty piece merging needed for the
way `textwrap.indent` walks lines). -/
def splitOnNewline (s : List Char) : List (List Char) :=
  s.foldr (fun ch acc =>
    if ch = '\n' then [] :: acc
    else
      match acc with
      | [] => [[ch]]
      | h :: t => (ch :: h) :: t) [[]]

/-- `textwrap.indent(text, pfx)` with the default predicate: prepend `pfx`
to every line that contains a non-whitespace character. -/
def pyIndent (text pfx : String) : String :=
  String.intercalate "\n"
    ((splitOnNewline text.data).map (fun l =>
      if pyStrip ⟨l⟩ ≠ "" then pfx ++ ⟨l⟩ else (⟨l⟩ : String)))

/-- `MAX_SUGGESTIONS` from the source. -/
def MAX_SUGGESTIONS : Nat := 3

/-- `CUTOFF` from the source; the float `0.5` is exactly `1/2`. -/
def CUTOFF : PyFloat :=
  ⟨1, 2, Nat.zero_lt_two⟩

/-- `_suggest_cli_command`: fuzzy suggestions for a mistyped command. -/
def suggestCliCommand (originalCommandName : String)
    (existingCommandNames : List String) : String :=
  let found := getCloseMatches originalCommandName existingCommandNames
    MAX_SUGGESTIONS CUTOFF
  if found.isEmpty then ""
  else
    (if found.length = 1 then "\n\nDid you mean this?"
     else "\n\nDid you mean one of these?\n") ++
    pyIndent (String.intercalate "\n" found) "    "

/-!
Model of the router state (`CommandCollection` instance after `__init__`)
and of `main` / `_load_plugins` / `_safe_load_entry_point`.  A loaded
entry point is a click group; `add_source` appends whatever
`_safe_load_entry_point` returned to `self.sources` — including Python
`None` after a failed load, which the model keeps as an explicit
`ClickSource.pyNone` constructor because click's `list_commands` then
dereferences it.
-/

deriving instance DecidableEq for Except

/-- An `importlib` entry point: its `module` attribute, its `repr` (what
`%s`-formatting of the entry point itself prints), and the outcome of
`entry_point.load()` — a click group on success, the exception message on
failure. -/
structure EntryPoint where
  epModule : String
  epRepr : String
  epResult : Except String CmdGroup
deriving DecidableEq, Repr

/-- One element of `CommandCollection.sources`: a merged collection (from
construction), a loaded plugin group (from `add_source`), or Python `None`
(from `add_source(None)` after a failed load). -/
inductive ClickSource where
  | coll (c : CmdCollection)
  | grp (g : CmdGroup)
  | pyNone
deriving DecidableEq, Repr

/-- Router state: `self.sources` and the ordered dict `self.lazy_groups`
(plugin name to entry point). -/
structure Router where
  sources : List ClickSource
  lazyGroups : List (String × EntryPoint)
deriving DecidableEq, Repr

/-- `_partial_match`: the first plugin name containing the command name as
a substring, if any. -/
def partMatch (pluginNames : List String) (commandName : String) : Option String :=
  pluginNames.find? (fun n => decide (commandName.data <:+: n.data))

/-- `_safe_load_entry_point`: the loaded group, or `none` together with the
warning that `logger.warning` formats from the module, the entry point and
the exception. -/
def safeLoadEntryPoint (ep : EntryPoint) : Option CmdGroup × List String :=
  match ep.epResult with
  | .ok g => (some g, [])
  | .error exc =>
      (none,
       ["Failed to load " ++ ep.epModule ++ " commands from " ++ ep.epRepr ++
        ". Full exception: " ++ exc])

/-- `click.CommandCollection.add_source`: appends to `self.sources`; a
`None` argument is appended as `pyNone`. -/
def addSourceR (r : Router) (s : Option CmdGroup) : Router :=
  { r with
    sources := r.sources ++ [match s with | some g => ClickSource.grp g | none => ClickSource.pyNone] }

/-- `source.list_commands(ctx)` for one element of `self.sources`;
`None.list_commands` raises `AttributeError`. -/
def sourceListCommands : ClickSource → Except String (List String)
  | .coll c => .ok (collListCommands c)
  | .grp g => .ok (namesG g)
  | .pyNone => .error "AttributeError: NoneType object has no attribute list_commands"

/-- `self.list_commands(None)`: click unions its sources' command names
(and sorts them; only membership is ever used by the modelled code, for
which the concatenation is equivalent).  Raises — here: returns `.error` —
as soon as a `None` source is reached. -/
def listCommandsE (r : Router) : Except String (List String) :=
  r.sources.foldr (fun s acc => do
    let names ← sourceListCommands s
    let rest ← acc
    pure (names ++ rest)) (Except.ok [])

/-- The `for ep in self.lazy_groups.values()` fallback loop of
`_load_plugins`: before each load, stop if the command resolves; the
second component is the trace of loader calls (plugin names, in order). -/
def loadAllFrom (r : Router) (commandName : String)
    (eps : List (String × EntryPoint)) (trace : List String) :
    Except String Router × List String :=
  match eps with
  | [] => (.ok r, trace)
  | (n, ep) :: rest =>
      match listCommandsE r with
      | .error e => (.error e, trace)
      | .ok cmds =>
          if commandName ∈ cmds then (.ok r, trace)
          else
            loadAllFrom (addSourceR r (safeLoadEntryPoint ep).1) commandName rest
              (trace ++ [n])

/-- Dict lookup `self.lazy_groups[part_match]` (the key is always present
when `_partial_match` returned it, so the default is never used). -/
def findEp (r : Router) (name : String) : EntryPoint :=
  (((r.lazyGroups.find? (fun p => p.1 == name)).map Prod.snd).getD
    ⟨"", "", .error ""⟩)

/-- `CommandCollection._load_plugins(command_name)`.  Phase one: if
`_partial_match` found a (truthy, i.e. nonempty) name, load that entry
point, `add_source` the result, and stop if the command is now listed.
Phase two: the fallback loop over all of `self.lazy_groups.values()`.
Result: the router state (or the uncaught exception) and the trace of
loader calls. -/
def loadPlugins (r : Router) (commandName : String) :
    Except String Router × List String :=
  let epNames := r.lazyGroups.map Prod.fst
  match partMatch epNames commandName with
  | some p =>
      if p = "" then loadAllFrom r commandName r.lazyGroups []
      else
        let r1 := addSourceR r (safeLoadEntryPoint (findEp r p)).1
        match listCommandsE r1 with
        | .error e => (.error e, [p])
        | .ok cmds =>
            if commandName ∈ cmds then (.ok r1, [p])
            else loadAllFrom r1 commandName r.lazyGroups [p]
  | none => loadAllFrom r commandName r.lazyGroups []

/-- `CommandCollection.main(args, ...)` up to the delegation to
`super().main`: the guard is `args is not None and args[0] not in
self.list_commands(None)` — evaluating `args[0]` on an empty sequence
raises `IndexError` before anything else happens.  Returns the router
state in which click would then resolve and dispatch, plus the trace of
plugin loads performed. -/
def ccMain (r : Router) (args : Option (List String)) :
    Except String Router × List String :=
  match args with
  | none => (.ok r, [])
  | some [] => (.error "IndexError: tuple index out of range", [])
  | some (a :: _) =>
      match listCommandsE r with
      | .error e => (.error e, [])
      | .ok cmds =>
          if a ∈ cmds then (.ok r, [])
          else loadPlugins r a

/-- Command names visible in a router state when no `pyNone` source is
present (total version used by the spec-side protocol below; it never
differs from `listCommandsE` on `pyNone`-free states). -/
def listCommandsOk (r : Router) : List String :=
  r.sources.flatMap (fun s =>
    match s with
    | .coll c => collListCommands c
    | .grp g => namesG g
    | .pyNone => [])

/-- Modelled from the spec (claim C2): the fallback phase of the claimed
two-phase protocol — "every remaining lazy handle is loaded one at a time
in enumeration order, stopping (before loading the next handle) as soon as
the typed command becomes resolvable". -/
def claimedLoadAll (r : Router) (commandName : String)
    (eps : List (String × EntryPoint)) (trace : List String) :
    Router × List String :=
  match eps with
  | [] => (r, trace)
  | (n, ep) :: rest =>
      if commandName ∈ listCommandsOk r then (r, trace)
      else
        claimedLoadAll (addSourceR r (safeLoadEntryPoint ep).1) commandName rest
          (trace ++ [n])

/-- Modelled from the spec (claim C2): the claimed two-phase plugin-loading
protocol.  "First, the first lazy-plugin name containing the typed command
as a substring (if any) is loaded and merged in, and if the command is then
found no further plugin is loaded; otherwise every remaining lazy handle is
loaded one at a time in enumeration order, stopping (before loading the
next handle) as soon as the typed command becomes resolvable." -/
def claimedLoadProtocol (r : Router) (commandName : String) :
    Router × List String :=
  match partMatch (r.lazyGroups.map Prod.fst) commandName with
  | some p =>
      let r1 := addSourceR r (safeLoadEntryPoint (findEp r p)).1
      if commandName ∈ listCommandsOk r1 then (r1, [p])
      else claimedLoadAll r1 commandName r.lazyGroups [p]
  | none => claimedLoadAll r commandName r.lazyGroups []

/-!
Model of the config-file overlay (`_config_file_callback` and
`_validate_config_file`).  `OmegaConf.load` and the section selection are
external I/O; the section's key/value mapping is a parameter.  The `run`
command of `kedro.framework.cli.project` is outside the modelled source
file, so its declared parameter names are likewise a parameter.
-/

/-- `_validate_config_file(key)`: the accepted keys are the `run` command's
parameter names with `"config"` removed (`run_args.remove("config")`); an
unrecognized key raises `KedroCliError` whose message names the key and
appends the fuzzy suggestions. -/
def validateConfigFile (runParams : List String) (key : String) :
    Except String Unit :=
  let runArgs := runParams.erase "config"
  if key ∈ runArgs then .ok ()
  else
    .error ("Key `" ++ key ++ "` in provided configuration is not valid. " ++
      suggestCliCommand key runArgs)

/-- Python `dict.update`: existing keys keep their position and take the
new value, new keys are appended in iteration order. -/
def dictUpdate (old new : List (String × Nat)) : List (String × Nat) :=
  (old.map (fun p =>
    match new.lookup p.1 with
    | some v => (p.1, v)
    | none => p)) ++
  new.filter (fun q => decide (q.1 ∉ old.map Prod.fst))

/-- The `for key, value in config.items(): _validate_config_file(key)`
loop: the first invalid key raises. -/
def validateKeys (runParams : List String) :
    List (String × Nat) → Except String Unit
  | [] => .ok ()
  | p :: rest => do
      let _ ← validateConfigFile runParams p.1
      validateKeys runParams rest

/-- The body of `_config_file_callback` once a config path was given:
validate every key in order (the first invalid key raises), then
`ctx.default_map.update(config)`. -/
def configFileCallback (runParams : List String)
    (defaultMap config : List (String × Nat)) :
    Except String (List (String × Nat)) := do
  let _ ← validateKeys runParams config
  pure (dictUpdate defaultMap config)

/-- Click's parameter-value resolution for a parameter `name`: an
explicitly supplied command-line flag wins, otherwise the default map
(as installed by the callback) supplies the value. -/
def paramValue (flags defaults : List (String × Nat)) (name : String) :
    Option Nat :=
  (flags.lookup name).orElse (fun _ => defaults.lookup name)

/-- Two command groups provide disjoint command-name sets. -/
def disjointNamesG (g1 g2 : CmdGroup) : Prop :=
  ∀ n ∈ namesG g1, n ∉ namesG g2

/-!
Concrete scenarios used by counterexamples and witnesses.
-/

/-- A plugin entry point whose load succeeds but exposes a command other
than the one typed (claim C3's scenario). -/
def c3VizEp : EntryPoint :=
  ⟨"kedro_viz", "EntryPoint(kedro-viz)", .ok ⟨"viz", "", 0, [], [("vizual", ⟨7⟩)]⟩⟩

/-- Router with the single lazy plugin `kedro-viz` (claim C3). -/
def c3Router : Router :=
  ⟨[], [("kedro-viz", c3VizEp)]⟩

/-- A plugin entry point whose load raises (claim C6). -/
def c6FailEp : EntryPoint :=
  ⟨"kedro_viz", "EntryPoint(kedro-viz)", .error "No module named vizpkg"⟩

/-- Router with one healthy eager source and the failing lazy plugin
(claim C6). -/
def c6Router : Router :=
  ⟨[ClickSource.coll ⟨"k", "", 0, [], [⟨"g", "", 0, [], [("x", ⟨1⟩)]⟩]⟩],
   [("kedro-viz", c6FailEp)]⟩

/-- A failing entry point named away from the typed command (claim C2). -/
def c2FailEpA : EntryPoint :=
  ⟨"alpha_mod", "EP(alpha)", .error "boom"⟩

/-- A healthy entry point exposing the typed command (claim C2). -/
def c2OkEpB : EntryPoint :=
  ⟨"beta_mod", "EP(beta)", .ok ⟨"b", "", 0, [], [("target", ⟨9⟩)]⟩⟩

/-- Router whose first lazy handle fails to load (claim C2). -/
def c2FailRouter : Router :=
  ⟨[], [("alpha", c2FailEpA), ("beta", c2OkEpB)]⟩

/-- A healthy entry point registered under the empty plugin name
(claim C2's string-truthiness corner). -/
def c2EmptyNameEp : EntryPoint :=
  ⟨"em", "EP()", .ok ⟨"e", "", 0, [], []⟩⟩

/-- Router with a plugin whose registered name is the empty string
(claim C2). -/
def c2EmptyNameRouter : Router :=
  ⟨[], [("", c2EmptyNameEp)]⟩

/-- A healthy entry point exposing `docker-build` (claim C2's witness). -/
def c2OkEp : EntryPoint :=
  ⟨"docker_mod", "EP(kedro-docker)", .ok ⟨"d", "", 0, [], [("docker-build", ⟨3⟩)]⟩⟩

/-- Router with the single healthy lazy plugin `kedro-docker`
(claim C2's witness). -/
def c2OkRouter : Router :=
  ⟨[], [("kedro-docker", c2OkEp)]⟩

/-- First constituent group of the `"project"` merge example (claim C4). -/
def c4G1 : CmdGroup :=
  ⟨"project", "H1", 1, ["p1"], [("a", ⟨1⟩)]⟩

/-- Second constituent group of the `"project"` merge example (claim C4). -/
def c4G2 : CmdGroup :=
  ⟨"project", "H2", 2, ["p2"], [("a", ⟨2⟩)]⟩

/-- A command collection holding a single command group. -/
def collOf (g : CmdGroup) : CmdCollection :=
  ⟨g.gname, g.ghelp, g.gcallback, g.gparams, [g]⟩

/-- Lower-priority group of the dedup example (claims C1 and C5). -/
def c1GA : CmdGroup :=
  ⟨"global", "", 0, [], [("run", ⟨1⟩), ("info", ⟨2⟩)]⟩

/-- Higher-priority group of the dedup example (claims C1 and C5). -/
def c1GB : CmdGroup :=
  ⟨"project", "", 1, [], [("run", ⟨3⟩)]⟩

/-!
Theorems.
-/

/-- C9: `split_node_names` splits on commas while treating commas enclosed
by square brackets as non-split points; on `"f([a,b]) -> [c],g"` it returns
exactly `["f([a,b]) -> [c]", "g"]`. -/
theorem c9_split_node_names_brackets :
    splitNodeNames "f([a,b]) -> [c],g" = ["f([a,b]) -> [c]", "g"] := by
  decide

/-- C10: `CommandCollection.main` guards plugin loading only with
`args is not None`; for any router state, a non-`None` empty argument
sequence hits the out-of-bounds `args[0]` access (an `IndexError`) before
any plugin load, resolution or dispatch (empty load trace), while `None`
arguments skip the plugin-loading step entirely. -/
theorem c10_main_empty_args_index_error (r : Router) :
    ccMain r (some []) = (.error "IndexError: tuple index out of range", []) ∧
    ccMain r none = (.ok r, []) := by
  exact ⟨rfl, rfl⟩

/-- C6 (code bug): `_safe_load_entry_point` does catch the failure, logs a
warning naming the module and the underlying error, and returns `None` —
but the failure is fatal anyway: `_load_plugins` passes the `None` to
`add_source`, and the very next `list_commands` call dereferences it and
raises `AttributeError`, crashing the invocation even though a healthy
source (listing `["x"]`) was present. -/
theorem c6_failed_load_crashes_router :
    safeLoadEntryPoint c6FailEp =
      (none,
       ["Failed to load kedro_viz commands from EntryPoint(kedro-viz). Full exception: No module named vizpkg"]) ∧
    listCommandsE c6Router = .ok ["x"] ∧
    (loadPlugins c6Router "viz").1 =
      .error "AttributeError: NoneType object has no attribute list_commands" ∧
    (loadPlugins c6Router "viz").2 = ["kedro-viz"] := by
  decide

/-- The fallback loop's trace is the initial trace followed by the names of
some leading segment of the enumerated handles. -/
theorem loadAllFrom_trace_shape (cmd : String) :
    ∀ (eps : List (String × EntryPoint)) (r : Router) (trace : List String),
    ∃ k, (loadAllFrom r cmd eps trace).2 = trace ++ (eps.take k).map Prod.fst := by
  intro eps
  induction eps with
  | nil =>
      intro r trace
      exact ⟨0, by simp [loadAllFrom]⟩
  | cons hd rest ih =>
      intro r trace
      obtain ⟨n, ep⟩ := hd
      match h : listCommandsE r with
      | .error e =>
          exact ⟨0, by simp [loadAllFrom, h]⟩
      | .ok cmds =>
          by_cases hmem : cmd ∈ cmds
          · exact ⟨0, by simp [loadAllFrom, h, hmem]⟩
          · obtain ⟨k, hk⟩ :=
              ih (addSourceR r (safeLoadEntryPoint ep).1) (trace ++ [n])
            refine ⟨k + 1, ?_⟩
            simp [loadAllFrom, h, hmem, hk]

/-- The trace of one `_load_plugins` invocation is either the names of a
leading segment of the enumeration (no truthy partial match), or the
partial-match name followed by the names of a leading segment of the full
enumeration — which still contains the partial-match handle. -/
theorem loadPlugins_trace_shape (r : Router) (cmd : String) :
    (∃ k, (loadPlugins r cmd).2 = (r.lazyGroups.take k).map Prod.fst) ∨
    (∃ p k, partMatch (r.lazyGroups.map Prod.fst) cmd = some p ∧
      (loadPlugins r cmd).2 = p :: (r.lazyGroups.take k).map Prod.fst) := by
  cases hpm : partMatch (r.lazyGroups.map Prod.fst) cmd with
  | none =>
      left
      obtain ⟨k, hk⟩ := loadAllFrom_trace_shape cmd r.lazyGroups r []
      refine ⟨k, ?_⟩
      simp only [loadPlugins, hpm]
      simpa using hk
  | some p =>
      by_cases hp : p = ""
      · left
        obtain ⟨k, hk⟩ := loadAllFrom_trace_shape cmd r.lazyGroups r []
        refine ⟨k, ?_⟩
        simp only [loadPlugins, hpm, hp, if_pos]
        simpa using hk
      · cases h1 : listCommandsE (addSourceR r (safeLoadEntryPoint (findEp r p)).1) with
        | error e =>
            right
            refine ⟨p, 0, rfl, ?_⟩
            simp [loadPlugins, hpm, hp, h1]
        | ok cmds =>
            by_cases hmem : cmd ∈ cmds
            · right
              refine ⟨p, 0, rfl, ?_⟩
              simp [loadPlugins, hpm, hp, h1, hmem]
            · right
              obtain ⟨k, hk⟩ := loadAllFrom_trace_shape cmd r.lazyGroups
                (addSourceR r (safeLoadEntryPoint (findEp r p)).1) [p]
              refine ⟨p, k, rfl, ?_⟩
              simp [loadPlugins, hpm, hp, h1, hmem, hk]

/-- C3 (amended): within one `_load_plugins` invocation over a lazy-plugin
dict with (necessarily) distinct names, every handle is passed to the
loader at most **twice**, and only the partial-match handle can be loaded
twice — the load-all fallback re-iterates the full dict, so the handle
loaded in the partial-match phase is loaded a second time when the typed
command is still missing; no load-status cache exists. -/
theorem c3_amended_load_counts (r : Router) (cmd name : String)
    (h : (r.lazyGroups.map Prod.fst).Nodup) :
    (loadPlugins r cmd).2.count name ≤ 2 ∧
    ((loadPlugins r cmd).2.count name = 2 →
      partMatch (r.lazyGroups.map Prod.fst) cmd = some name) := by
  have count_take : ∀ k : Nat,
      (((r.lazyGroups.take k).map Prod.fst).count name) ≤ 1 := by
    intro k
    have hsub : ((r.lazyGroups.take k).map Prod.fst).Sublist
        (r.lazyGroups.map Prod.fst) :=
      (List.take_sublist _ _).map _
    exact List.nodup_iff_count_le_one.mp (h.sublist hsub) name
  rcases loadPlugins_trace_shape r cmd with ⟨k, hk⟩ | ⟨p, k, hpm, hk⟩
  · rw [hk]
    have := count_take k
    exact ⟨by omega, fun h2 => by omega⟩
  · rw [hk]
    have h1 := count_take k
    by_cases hpn : p = name
    · subst hpn
      rw [List.count_cons_self]
      exact ⟨by omega, fun _ => hpm⟩
    · have : (name == p) = false := by
        simp [BEq.beq]
        exact fun hcontra => hpn hcontra.symm
      rw [List.count_cons_of_ne (by simpa using this)]
      exact ⟨by omega, fun h2 => by omega⟩

/-- C3 (counterexample): the router with the single lazy plugin
`"kedro-viz"` whose load succeeds but exposes only `vizual`; invoking the
unknown command `"viz"` loads the very same handle twice in one
invocation — once in the partial-match phase and once in the fallback —
refuting "each LazyPluginHandle is loaded at most once". -/
theorem c3_counterexample_double_load :
    (loadPlugins c3Router "viz").2 = ["kedro-viz", "kedro-viz"] ∧
    (loadPlugins c3Router "viz").2.count "kedro-viz" = 2 := by
  decide

/-- C3 witness: the amended bound applied to the concrete single-plugin
router. -/
theorem c3_amended_load_counts_witness :
    (loadPlugins c3Router "viz").2.count "kedro-viz" ≤ 2 ∧
    ((loadPlugins c3Router "viz").2.count "kedro-viz" = 2 →
      partMatch (c3Router.lazyGroups.map Prod.fst) "viz" = some "kedro-viz") :=
  c3_amended_load_counts c3Router "viz" "kedro-viz" (by decide)

/-- On a router whose sources contain no `None`, click's `list_commands`
succeeds and returns exactly the names `listCommandsOk` computes. -/
theorem listCommandsE_eq_ok (r : Router)
    (h : ClickSource.pyNone ∉ r.sources) :
    listCommandsE r = .ok (listCommandsOk r) := by
  obtain ⟨l, lg⟩ := r
  induction l with
  | nil => rfl
  | cons s t ih =>
      have hs : s ≠ ClickSource.pyNone := by
        intro hcontra
        exact h (by simp [hcontra])
      have ht : ClickSource.pyNone ∉ t := by
        intro hcontra
        exact h (by simp [hcontra])
      have ih' := ih ht
      cases s with
      | coll c =>
          simp only [listCommandsE, List.foldr_cons] at ih' ⊢
          rw [ih']
          simp only [sourceListCommands, listCommandsOk]
          rfl
      | grp g =>
          simp only [listCommandsE, List.foldr_cons] at ih' ⊢
          rw [ih']
          simp only [sourceListCommands, listCommandsOk]
          rfl
      | pyNone => exact absurd rfl hs

/-- Appending a successfully loaded group keeps the sources `None`-free. -/
theorem addSourceR_no_pyNone (r : Router) (g : CmdGroup)
    (h : ClickSource.pyNone ∉ r.sources) :
    ClickSource.pyNone ∉ (addSourceR r (some g)).sources := by
  simp [addSourceR]
  exact h

/-- When every enumerated handle loads successfully and the sources are
`None`-free, the code's fallback loop computes exactly the spec-side
fallback (same final state, same trace), with no exception. -/
theorem loadAllFrom_eq_claimed (cmd : String) :
    ∀ (eps : List (String × EntryPoint)) (r : Router) (trace : List String),
    ClickSource.pyNone ∉ r.sources →
    (∀ p ∈ eps, p.2.epResult.isOk = true) →
    loadAllFrom r cmd eps trace =
      (.ok (claimedLoadAll r cmd eps trace).1,
       (claimedLoadAll r cmd eps trace).2) := by
  intro eps
  induction eps with
  | nil =>
      intro r trace _ _
      rfl
  | cons hd rest ih =>
      intro r trace hsrc hok
      obtain ⟨n, ep⟩ := hd
      have hlist := listCommandsE_eq_ok r hsrc
      have hepok : ep.epResult.isOk = true := hok (n, ep) (by simp)
      obtain ⟨g, hg⟩ : ∃ g, ep.epResult = .ok g := by
        cases hep : ep.epResult with
        | ok g => exact ⟨g, rfl⟩
        | error e => rw [hep] at hepok; simp [Except.isOk, Except.toBool] at hepok
      have hsafe : (safeLoadEntryPoint ep).1 = some g := by
        simp [safeLoadEntryPoint, hg]
      by_cases hmem : cmd ∈ listCommandsOk r
      · simp [loadAllFrom, claimedLoadAll, hlist, hmem]
      · have hrest := ih (addSourceR r (safeLoadEntryPoint ep).1) (trace ++ [n])
          (by rw [hsafe]; exact addSourceR_no_pyNone r g hsrc)
          (fun p hp => hok p (by simp [hp]))
        simp [loadAllFrom, claimedLoadAll, hlist, hmem, hrest]

/-- A name returned by `_partial_match` is one of the given plugin names. -/
theorem partMatch_mem {keys : List String} {cmd p : String}
    (h : partMatch keys cmd = some p) : p ∈ keys :=
  List.mem_of_find?_eq_some h

/-- The entry point `self.lazy_groups[part_match]` loads successfully when
all of them do. -/
theorem findEp_isOk (r : Router) (p : String)
    (hmem : p ∈ r.lazyGroups.map Prod.fst)
    (hl : ∀ q ∈ r.lazyGroups, q.2.epResult.isOk = true) :
    (findEp r p).epResult.isOk = true := by
  obtain ⟨q, hq, hq1⟩ : ∃ q ∈ r.lazyGroups, q.1 = p := by
    simpa using hmem
  have hsome : (r.lazyGroups.find? (fun x => x.1 == p)).isSome := by
    rw [List.find?_isSome]
    exact ⟨q, hq, by simp [hq1]⟩
  obtain ⟨q', hq'⟩ := Option.isSome_iff_exists.mp hsome
  have hq'mem : q' ∈ r.lazyGroups := List.mem_of_find?_eq_some hq'
  simpa [findEp, hq'] using hl q' hq'mem

/-- C2 (amended): provided every lazy handle's load succeeds and no plugin
is registered under the empty name, `_load_plugins` follows exactly the
claimed two-phase protocol (`claimedLoadProtocol`, written from the
claim's words): first the first partial-match name is loaded and merged,
stopping if the typed command appears; otherwise the fallback enumerates
all handles in order, checking resolvability before each load and never
touching handles past the stopping point.  (A failing load instead aborts
the invocation at the next listing — see the C2 counterexample — and an
empty partial-match name is skipped by Python string truthiness.) -/
theorem c2_amended_two_phase_protocol (r : Router) (cmd : String)
    (hsrc : ClickSource.pyNone ∉ r.sources)
    (hload : ∀ p ∈ r.lazyGroups, p.2.epResult.isOk = true)
    (hne : "" ∉ r.lazyGroups.map Prod.fst) :
    loadPlugins r cmd =
      (.ok (claimedLoadProtocol r cmd).1, (claimedLoadProtocol r cmd).2) := by
  cases hpm : partMatch (r.lazyGroups.map Prod.fst) cmd with
  | none =>
      simp only [loadPlugins, claimedLoadProtocol, hpm]
      exact loadAllFrom_eq_claimed cmd r.lazyGroups r [] hsrc hload
  | some p =>
      have hp : p ≠ "" := by
        intro hcontra
        exact hne (hcontra ▸ partMatch_mem hpm)
      have hepok := findEp_isOk r p (partMatch_mem hpm) hload
      obtain ⟨g, hg⟩ : ∃ g, (findEp r p).epResult = .ok g := by
        cases hep : (findEp r p).epResult with
        | ok g => exact ⟨g, rfl⟩
        | error e => rw [hep] at hepok; simp [Except.isOk, Except.toBool] at hepok
      have hsafe : (safeLoadEntryPoint (findEp r p)).1 = some g := by
        simp [safeLoadEntryPoint, hg]
      have hsrc1 : ClickSource.pyNone ∉
          (addSourceR r (safeLoadEntryPoint (findEp r p)).1).sources := by
        rw [hsafe]
        exact addSourceR_no_pyNone r g hsrc
      have hlist := listCommandsE_eq_ok _ hsrc1
      by_cases hmem :
          cmd ∈ listCommandsOk (addSourceR r (safeLoadEntryPoint (findEp r p)).1)
      · simp [loadPlugins, claimedLoadProtocol, hpm, hp, hlist, hmem]
      · have hrest := loadAllFrom_eq_claimed cmd r.lazyGroups
          (addSourceR r (safeLoadEntryPoint (findEp r p)).1) [p] hsrc1 hload
        simp [loadPlugins, claimedLoadProtocol, hpm, hp, hlist, hmem, hrest]

/-- C2 (counterexample): with handles `alpha` (load fails) then `beta`
(exposes the typed command `target`) and no partial match, the claimed
protocol would load `alpha` then `beta`; the code instead aborts with an
`AttributeError` at the resolvability check after `alpha`'s failed load,
and `beta` is never loaded even though `target` never became resolvable.
Moreover a plugin registered under the empty name is skipped by the
partial-match phase (string truthiness) although it is a substring match. -/
theorem c2_counterexample_failed_load_aborts :
    (loadPlugins c2FailRouter "target").1 =
      .error "AttributeError: NoneType object has no attribute list_commands" ∧
    (loadPlugins c2FailRouter "target").2 = ["alpha"] ∧
    (claimedLoadProtocol c2FailRouter "target").2 = ["alpha", "beta"] ∧
    partMatch (c2EmptyNameRouter.lazyGroups.map Prod.fst) "" = some "" ∧
    (loadPlugins c2EmptyNameRouter "").2 = [""] ∧
    (claimedLoadProtocol c2EmptyNameRouter "").2 = ["", ""] := by
  decide

/-- C2 witness: the amended protocol equality applied to a healthy router
(one lazy plugin `kedro-docker` exposing `docker-build`). -/
theorem c2_amended_two_phase_protocol_witness :
    loadPlugins c2OkRouter "docker-build" =
      (.ok (claimedLoadProtocol c2OkRouter "docker-build").1,
       (claimedLoadProtocol c2OkRouter "docker-build").2) :=
  c2_amended_two_phase_protocol c2OkRouter "docker-build" (by decide) (by decide)
    (by decide)

/-- C1: for two sources (the earlier holding group `gA`, the later — higher
priority — holding group `gB`), after `_dedupe_commands`, every command
name present in both resolves to the command object of the later source,
and the earlier source retains exactly the commands whose names the later
source does not provide. -/
theorem c1_dedupe_last_source_wins (gA gB : CmdGroup) (n : String)
    (hA : n ∈ namesG gA) (hB : n ∈ namesG gB) :
    resolveCommand (dedupeCommands [collOf gA, collOf gB]) n = groupGetCommand gB n ∧
    (groupGetCommand gB n).isSome = true ∧
    ((dedupeCommands [collOf gA, collOf gB]).head?.map
        (fun c => c.csources.flatMap (fun g => g.commands))) =
      some (gA.commands.filter (fun p => decide (p.1 ∉ namesG gB))) := by
  have hBfilt : gB.commands.filter (fun p => decide (p.1 ∉ ([] : List String))) = gB.commands :=
    List.filter_eq_self.mpr (fun a _ => by simp)
  have hgBne : gB.commands.isEmpty = false := by
    rw [List.isEmpty_eq_false_iff_exists_mem]
    rw [namesG, List.mem_map] at hB
    obtain ⟨p, hp, _⟩ := hB
    exact ⟨p, hp⟩
  refine ⟨?_, ?_, ?_⟩
  · simp only [dedupeCommands, dedupeColls, dedupeGroups, dedupeGroup, collOf, hBfilt]
    simp only [List.map_cons, List.map_nil, removeEmptyGroups]
    simp only [resolveCommand, collGetCommand, groupGetCommand]
    have hAnone3 : List.find?
        (fun a => !decide (a.1 ∈ List.map Prod.fst gB.commands) && decide (a.1 = n))
        gA.commands = none := by
      rw [List.find?_eq_none]
      intro p hp
      rw [namesG] at hB
      by_cases hpn : p.1 = n
      · simp [hpn, hB]
      · simp [hpn]
    simp only [List.filter, hgBne, Bool.not_false]
    cases hfe : (List.filter
        (fun p => decide (p.1 ∉ [] ++ List.map Prod.fst gB.commands)) gA.commands).isEmpty <;>
      cases hfind : List.find? (fun p => p.1 == n) gB.commands <;>
        simp [hfe, hfind, List.findSome?_cons, hAnone3]
  · rw [groupGetCommand]
    have hsome : (List.find? (fun p => p.1 == n) gB.commands).isSome := by
      rw [List.find?_isSome]
      rw [namesG, List.mem_map] at hB
      obtain ⟨p, hp, hpn⟩ := hB
      exact ⟨p, hp, by simp [hpn]⟩
    obtain ⟨q, hq⟩ := Option.isSome_iff_exists.mp hsome
    simp [hq]
  · simp only [dedupeCommands, dedupeColls, dedupeGroups, dedupeGroup, collOf, hBfilt]
    simp only [List.map_cons, List.map_nil, removeEmptyGroups]
    simp only [List.filter, hgBne, Bool.not_false]
    cases hfe : (List.filter
        (fun p => decide (p.1 ∉ [] ++ List.map Prod.fst gB.commands)) gA.commands).isEmpty
    · simp [namesG, hfe]
    · have hnil : List.filter
          (fun p => decide (p.1 ∉ [] ++ List.map Prod.fst gB.commands)) gA.commands = [] := by
        rwa [← List.isEmpty_iff]
      simp [namesG, hfe, hnil]
      intro a b hab
      have hmem := List.filter_eq_nil_iff.mp hnil ⟨a, b⟩ hab
      simp only [List.nil_append, decide_eq_true_eq, Decidable.not_not] at hmem
      rw [List.mem_map] at hmem
      obtain ⟨⟨qa, qb⟩, hq, hq1⟩ := hmem
      simp only at hq1
      subst hq1
      exact ⟨qb, hq⟩

/-- C1 witness: the dedup example — `run` collides between the earlier
`global` group and the later `project` group and resolves to the later
source's object. -/
theorem c1_dedupe_last_source_wins_witness :
    resolveCommand (dedupeCommands [collOf c1GA, collOf c1GB]) "run" =
      groupGetCommand c1GB "run" ∧
    (groupGetCommand c1GB "run").isSome = true ∧
    ((dedupeCommands [collOf c1GA, collOf c1GB]).head?.map
        (fun c => c.csources.flatMap (fun g => g.commands))) =
      some (c1GA.commands.filter (fun p => decide (p.1 ∉ namesG c1GB))) :=
  c1_dedupe_last_source_wins c1GA c1GB "run" (by decide) (by decide)

/-- Names surviving one dedup step were not previously seen. -/
theorem dedupeGroup_fresh (seen : List String) (g : CmdGroup) :
    ∀ n ∈ namesG (dedupeGroup seen g).1, n ∉ seen := by
  intro n hn
  simp only [dedupeGroup, namesG, List.mem_map] at hn
  obtain ⟨p, hp, hpn⟩ := hn
  rw [List.mem_filter] at hp
  have := hp.2
  rw [decide_eq_true_eq] at this
  exact hpn ▸ this

/-- The reverse group walk only grows the seen set. -/
theorem dedupeGroups_seen_mono (gs : List CmdGroup) (seen : List String) :
    ∀ n ∈ seen, n ∈ (dedupeGroups gs seen).2 := by
  induction gs with
  | nil => intro n hn; exact hn
  | cons g rest ih =>
      intro n hn
      simp only [dedupeGroups]
      rw [dedupeGroup]
      exact List.mem_append_left _ (ih n hn)

/-- Every name surviving the reverse group walk ends up in the seen set. -/
theorem dedupeGroups_sub_seen (gs : List CmdGroup) (seen : List String) :
    ∀ g' ∈ (dedupeGroups gs seen).1, ∀ n ∈ namesG g',
      n ∈ (dedupeGroups gs seen).2 := by
  induction gs with
  | nil => intro g' hg'; simp [dedupeGroups] at hg'
  | cons g rest ih =>
      intro g' hg' n hn
      simp only [dedupeGroups, List.mem_cons] at hg' ⊢
      rcases hg' with hhead | htail
      · subst hhead
        rw [dedupeGroup]
        rw [dedupeGroup] at hn
        exact List.mem_append_right _ (by simpa [namesG] using hn)
      · rw [dedupeGroup]
        exact List.mem_append_left _ (ih g' htail n hn)

/-- No name surviving the reverse group walk was seen beforehand. -/
theorem dedupeGroups_fresh (gs : List CmdGroup) (seen : List String) :
    ∀ g' ∈ (dedupeGroups gs seen).1, ∀ n ∈ namesG g', n ∉ seen := by
  induction gs with
  | nil => intro g' hg'; simp [dedupeGroups] at hg'
  | cons g rest ih =>
      intro g' hg' n hn
      simp only [dedupeGroups, List.mem_cons] at hg'
      rcases hg' with hhead | htail
      · subst hhead
        intro hcontra
        exact dedupeGroup_fresh _ _ n hn (dedupeGroups_seen_mono rest seen n hcontra)
      · exact ih g' htail n hn

/-- After the reverse group walk, the groups of one collection have
pairwise disjoint name sets. -/
theorem dedupeGroups_pairwise (gs : List CmdGroup) (seen : List String) :
    List.Pairwise disjointNamesG (dedupeGroups gs seen).1 := by
  induction gs with
  | nil => exact List.Pairwise.nil
  | cons g rest ih =>
      simp only [dedupeGroups]
      refine List.Pairwise.cons ?_ ih
      intro g' hg' n hn
      intro hcontra
      exact dedupeGroup_fresh _ _ n hn (dedupeGroups_sub_seen rest seen g' hg' n hcontra)

/-- The reverse collection walk only grows the seen set. -/
theorem dedupeColls_seen_mono (colls : List CmdCollection) (seen : List String) :
    ∀ n ∈ seen, n ∈ (dedupeColls colls seen).2 := by
  induction colls with
  | nil => intro n hn; exact hn
  | cons c rest ih =>
      intro n hn
      simp only [dedupeColls]
      exact dedupeGroups_seen_mono _ _ n (ih n hn)

/-- Every name surviving the reverse collection walk ends up in the seen
set. -/
theorem dedupeColls_sub_seen (colls : List CmdCollection) (seen : List String) :
    ∀ c' ∈ (dedupeColls colls seen).1, ∀ g ∈ c'.csources, ∀ n ∈ namesG g,
      n ∈ (dedupeColls colls seen).2 := by
  induction colls with
  | nil => intro c' hc'; simp [dedupeColls] at hc'
  | cons c rest ih =>
      intro c' hc' g hg n hn
      simp only [dedupeColls, List.mem_cons] at hc' ⊢
      rcases hc' with hhead | htail
      · subst hhead
        exact dedupeGroups_sub_seen _ _ g hg n hn
      · exact dedupeGroups_seen_mono _ _ n (ih c' htail g hg n hn)

/-- No name surviving the reverse collection walk was seen beforehand. -/
theorem dedupeColls_fresh (colls : List CmdCollection) (seen : List String) :
    ∀ c' ∈ (dedupeColls colls seen).1, ∀ g ∈ c'.csources, ∀ n ∈ namesG g,
      n ∉ seen := by
  induction colls with
  | nil => intro c' hc'; simp [dedupeColls] at hc'
  | cons c rest ih =>
      intro c' hc' g hg n hn
      simp only [dedupeColls, List.mem_cons] at hc'
      rcases hc' with hhead | htail
      · subst hhead
        intro hcontra
        exact dedupeGroups_fresh _ _ g hg n hn (dedupeColls_seen_mono rest seen n hcontra)
      · exact ih c' htail g hg n hn

/-- After the reverse walk, all groups across all collections have
pairwise disjoint name sets. -/
theorem dedupeColls_flat_pairwise (colls : List CmdCollection) (seen : List String) :
    List.Pairwise disjointNamesG
      ((dedupeColls colls seen).1.flatMap CmdCollection.csources) := by
  induction colls with
  | nil => exact List.Pairwise.nil
  | cons c rest ih =>
      simp only [dedupeColls, List.flatMap_cons]
      rw [List.pairwise_append]
      refine ⟨dedupeGroups_pairwise _ _, ih, ?_⟩
      intro g hg r hr n hn
      rw [List.mem_flatMap] at hr
      obtain ⟨c', hc', hrc⟩ := hr
      intro hcontra
      exact dedupeGroups_fresh _ _ g hg n hn
        (dedupeColls_sub_seen rest seen c' hc' r hrc n hcontra)

/-- Removing emptied groups only drops groups. -/
theorem flat_removeEmpty_sublist (l : List CmdCollection) :
    ((l.map removeEmptyGroups).flatMap CmdCollection.csources).Sublist
      (l.flatMap CmdCollection.csources) := by
  induction l with
  | nil => simp
  | cons c rest ih =>
      simp only [List.map_cons, List.flatMap_cons, removeEmptyGroups]
      exact (List.filter_sublist _).append ih

/-- The reverse group walk preserves group names and order. -/
theorem dedupeGroups_gnames (gs : List CmdGroup) (seen : List String) :
    ((dedupeGroups gs seen).1).map CmdGroup.gname = gs.map CmdGroup.gname := by
  induction gs with
  | nil => rfl
  | cons g rest ih => simp [dedupeGroups, dedupeGroup, ih]

/-- The reverse collection walk preserves collection names and their
groups' names and order. -/
theorem dedupeColls_shape (colls : List CmdCollection) (seen : List String) :
    List.Forall₂ (fun c c' => c'.cname = c.cname ∧
      c'.csources.map CmdGroup.gname = c.csources.map CmdGroup.gname)
      colls (dedupeColls colls seen).1 := by
  induction colls with
  | nil => exact List.Forall₂.nil
  | cons c rest ih =>
      simp only [dedupeColls]
      exact List.Forall₂.cons ⟨rfl, dedupeGroups_gnames _ _⟩ ih

/-- C5: after `_dedupe_commands`, no command name appears in more than one
surviving command group across all sources combined (pairwise disjoint
name sets over the flattened groups); every surviving group has a
non-empty command mapping; and each source keeps its surviving groups in
their original order (the output group-name sequence is a sublist of the
input one, positionally per source). -/
theorem c5_dedupe_invariants (colls : List CmdCollection) :
    List.Pairwise disjointNamesG
      ((dedupeCommands colls).flatMap CmdCollection.csources) ∧
    (∀ c ∈ dedupeCommands colls, ∀ g ∈ c.csources, g.commands ≠ []) ∧
    List.Forall₂ (fun c c' => c'.cname = c.cname ∧
      (c'.csources.map CmdGroup.gname).Sublist (c.csources.map CmdGroup.gname))
      colls (dedupeCommands colls) := by
  refine ⟨?_, ?_, ?_⟩
  · exact (dedupeColls_flat_pairwise colls []).sublist (flat_removeEmpty_sublist _)
  · intro c hc g hg
    rw [dedupeCommands, List.mem_map] at hc
    obtain ⟨c0, _, hc0⟩ := hc
    subst hc0
    simp only [removeEmptyGroups, List.mem_filter] at hg
    have := hg.2
    intro hcontra
    rw [hcontra] at this
    simp at this
  · rw [dedupeCommands, List.forall₂_map_right_iff]
    refine (dedupeColls_shape colls []).imp ?_
    intro a b hab
    refine ⟨hab.1, ?_⟩
    rw [← hab.2]
    simp only [removeEmptyGroups]
    exact (List.filter_sublist _).map _

/-- C5 witness: in the two-source dedup example, the surviving `project`
group (a member of the deduped output) has a non-empty command mapping. -/
theorem c5_dedupe_invariants_witness : c1GB.commands ≠ [] :=
  (c5_dedupe_invariants [collOf c1GA, collOf c1GB]).2.1 (collOf c1GB) (by decide)
    c1GB (by decide)

/-- The first-seen name list never repeats a name and avoids the
accumulator. -/
theorem firstSeenAux_nodup (l : List String) :
    ∀ acc : List String, (firstSeenAux acc l).Nodup ∧
      ∀ x ∈ firstSeenAux acc l, x ∉ acc := by
  induction l with
  | nil => intro acc; exact ⟨List.nodup_nil, by simp [firstSeenAux]⟩
  | cons n rest ih =>
      intro acc
      by_cases hn : n ∈ acc
      · simp only [firstSeenAux, if_pos hn]
        exact ih acc
      · simp only [firstSeenAux, if_neg hn]
        obtain ⟨hnd, hni⟩ := ih (n :: acc)
        constructor
        · refine List.Nodup.cons ?_ hnd
          intro hcontra
          exact hni n hcontra (by simp)
        · intro x hx
          rw [List.mem_cons] at hx
          rcases hx with hx | hx
          · subst hx; exact hn
          · intro hcontra
            exact hni x hx (by simp [hcontra])

/-- Distinct names in first-seen order are distinct. -/
theorem firstSeen_nodup (l : List String) : (firstSeen l).Nodup :=
  (firstSeenAux_nodup l []).1

/-- C4 (amended): `_merge_same_name_collections` collapses same-named
groups into exactly one output collection per distinct name, in
first-seen order; the merged collection's sources are the constituents in
order, its help is the **blank-line** (`"\n\n"`) join of the
constituents' non-empty helps (so `H1`, `H2` yield `"H1\n\nH2"`), its
callback and params come from the first constituent, and resolving a name
in the merged collection yields the **first** constituent's command with
that name (click's first-source-wins; the later-wins behaviour of the
spec only arises after the separate cross-source dedup pass). -/
theorem c4_amended_merge (groups : List CmdGroup) :
    (mergeSameName groups).map CmdCollection.cname = firstSeen (groups.map CmdGroup.gname) ∧
    ((mergeSameName groups).map CmdCollection.cname).Nodup ∧
    (∀ c ∈ mergeSameName groups,
      c.csources = groups.filter (fun g => g.gname == c.cname) ∧
      c.chelp = String.intercalate "\n\n"
        (((groups.filter (fun g => g.gname == c.cname)).filter
          (fun g => g.ghelp ≠ "")).map CmdGroup.ghelp) ∧
      (∀ g0 t, groups.filter (fun g => g.gname == c.cname) = g0 :: t →
        c.ccallback = g0.gcallback ∧ c.cparams = g0.gparams) ∧
      (∀ name, collGetCommand c name =
        (groups.filter (fun g => g.gname == c.cname)).findSome?
          (fun g => groupGetCommand g name)) ∧
      collListCommands c = (groups.filter (fun g => g.gname == c.cname)).flatMap namesG) ∧
    (mergeSameName [c4G1, c4G2]).map CmdCollection.chelp = ["H1\n\nH2"] := by
  have hmapid : (mergeSameName groups).map CmdCollection.cname =
      firstSeen (groups.map CmdGroup.gname) := by
    rw [mergeSameName, List.map_map]
    exact List.map_id'' (fun _ => rfl) _
  refine ⟨hmapid, ?_, ?_, by decide⟩
  · rw [hmapid]
    exact firstSeen_nodup _
  · intro c hc
    rw [mergeSameName, List.mem_map] at hc
    obtain ⟨n, hn, hcn⟩ := hc
    subst hcn
    refine ⟨rfl, rfl, ?_, fun name => rfl, rfl⟩
    intro g0 t hft
    simp [hft]

/-- C4 (counterexample): merging the two `"project"` groups with helps
`H1`, `H2` and a shared command name `a` yields help `"H1\n\nH2"` — not
the claimed `"H1\nH2"` — and resolving `a` in the merged collection
returns the **first** constituent's object, not the later one's as the
claim states. -/
theorem c4_counterexample_help_join_and_first_wins :
    (mergeSameName [c4G1, c4G2]).map CmdCollection.chelp = ["H1\n\nH2"] ∧
    "H1\n\nH2" ≠ "H1\nH2" ∧
    (mergeSameName [c4G1, c4G2]).map (fun c => collGetCommand c "a") =
      [some ⟨1⟩] ∧
    (some (⟨1⟩ : Cmd)) ≠ some ⟨2⟩ := by
  decide

/-- C4 witness: the amended description applied to the concrete
`"project"` merge. -/
theorem c4_amended_merge_witness :
    (⟨"project", "H1\n\nH2", 1, ["p1"], [c4G1, c4G2]⟩ : CmdCollection).csources =
      [c4G1, c4G2].filter (fun g =>
        g.gname == (⟨"project", "H1\n\nH2", 1, ["p1"],
          [c4G1, c4G2]⟩ : CmdCollection).cname) :=
  ((c4_amended_merge [c4G1, c4G2]).2.2.1 _ (by decide)).1

/-- A key present among an association list's keys has a lookup value. -/
theorem lookup_some_of_mem_keys {l : List (String × Nat)} {name : String}
    (h : name ∈ l.map Prod.fst) : ∃ v, l.lookup name = some v := by
  induction l with
  | nil => simp at h
  | cons q rest ih =>
      obtain ⟨k, v⟩ := q
      rw [List.map_cons, List.mem_cons] at h
      by_cases hk : name = k
      · exact ⟨v, by simp [List.lookup_cons, hk]⟩
      · have hbeq : (name == k) = false := by simp [hk]
        have hmem : name ∈ rest.map Prod.fst := by
          rcases h with h | h
          · exact absurd h hk
          · exact h
        obtain ⟨w, hw⟩ := ih hmem
        exact ⟨w, by simp [List.lookup_cons, hbeq, hw]⟩

/-- Looking a key up in the value-updated copy of `old` yields the new
value, when the key occurs in both. -/
theorem lookup_mapped_update {new : List (String × Nat)} {name : String}
    (hnew : name ∈ new.map Prod.fst) :
    ∀ old : List (String × Nat), name ∈ old.map Prod.fst →
    (old.map (fun p =>
      match new.lookup p.1 with
      | some v => (p.1, v)
      | none => p)).lookup name = new.lookup name := by
  intro old
  induction old with
  | nil => intro h; simp at h
  | cons q rest ih =>
      intro h
      obtain ⟨k, v⟩ := q
      by_cases hk : name = k
      · subst hk
        obtain ⟨w, hw⟩ := lookup_some_of_mem_keys hnew
        simp only [List.map_cons, hw, List.lookup_cons]
        simp [hw]
      · have hbeq : (name == k) = false := by simp [hk]
        rw [List.map_cons, List.mem_cons] at h
        have hmem : name ∈ rest.map Prod.fst := by
          rcases h with h | h
          · exact absurd h hk
          · exact h
        cases hlk : new.lookup k <;>
          simp [List.lookup_cons, hbeq, ih hmem, hlk]

/-- Looking a key up in the value-updated copy of `old` misses when the
key is not among `old`'s keys (the update preserves keys). -/
theorem lookup_mapped_none {new : List (String × Nat)} {name : String} :
    ∀ old : List (String × Nat), name ∉ old.map Prod.fst →
    (old.map (fun p =>
      match new.lookup p.1 with
      | some v => (p.1, v)
      | none => p)).lookup name = none := by
  intro old
  induction old with
  | nil => intro _; rfl
  | cons q rest ih =>
      intro h
      obtain ⟨k, v⟩ := q
      rw [List.map_cons, List.mem_cons] at h
      push_neg at h
      have hbeq : (name == k) = false := by simp [h.1]
      cases hlk : new.lookup k <;>
        simp [List.lookup_cons, hbeq, ih h.2, hlk]

/-- Filtering with a condition that keeps every entry of the looked-up key
does not change the lookup result. -/
theorem lookup_filter_keep {name : String} (cond : String × Nat → Bool) :
    ∀ new : List (String × Nat), (∀ q ∈ new, q.1 = name → cond q = true) →
    (new.filter cond).lookup name = new.lookup name := by
  intro new
  induction new with
  | nil => intro _; rfl
  | cons q rest ih =>
      intro h
      obtain ⟨k, v⟩ := q
      by_cases hk : name = k
      · have hc : cond (k, v) = true := h (k, v) (by simp) hk.symm
        simp [List.filter_cons, hc, List.lookup_cons, hk]
      · have hbeq : (name == k) = false := by simp [hk]
        have hrest := ih (fun q hq => h q (by simp [hq]))
        cases hc : cond (k, v) <;>
          simp [List.filter_cons, hc, List.lookup_cons, hbeq, hrest]

/-- `dict.update` semantics: a key of `new` looks up to its `new` value in
the updated dict. -/
theorem dictUpdate_lookup (old new : List (String × Nat)) (name : String)
    (hmem : name ∈ new.map Prod.fst) :
    (dictUpdate old new).lookup name = new.lookup name := by
  rw [dictUpdate, List.lookup_append]
  by_cases hold : name ∈ old.map Prod.fst
  · rw [lookup_mapped_update hmem old hold]
    obtain ⟨v, hv⟩ := lookup_some_of_mem_keys hmem
    simp [hv]
  · rw [lookup_mapped_none old hold]
    rw [lookup_filter_keep _ new (fun q _ hqn => by
      rw [decide_eq_true_eq]
      rw [hqn]
      exact hold)]
    rfl

/-- All-valid keys pass the validation loop. -/
theorem validateKeys_ok (runParams : List String) :
    ∀ config : List (String × Nat),
    (∀ p ∈ config, p.1 ∈ runParams.erase "config") →
    validateKeys runParams config = .ok () := by
  intro config
  induction config with
  | nil => intro _; rfl
  | cons p rest ih =>
      intro h
      have hp := h p (by simp)
      have hrest := ih (fun q hq => h q (by simp [hq]))
      simp only [validateKeys, validateConfigFile, if_pos hp, hrest]
      rfl

/-- The first invalid key aborts the validation loop with the
`KedroCliError` message naming the key and carrying the fuzzy
suggestions. -/
theorem validateKeys_error (runParams : List String) (k : String) (v : Nat)
    (hk : k ∉ runParams.erase "config") :
    ∀ pre, (∀ p ∈ pre, p.1 ∈ runParams.erase "config") →
    ∀ post, validateKeys runParams (pre ++ (k, v) :: post) =
      .error ("Key `" ++ k ++ "` in provided configuration is not valid. " ++
        suggestCliCommand k (runParams.erase "config")) := by
  intro pre
  induction pre with
  | nil =>
      intro _ post
      rw [List.nil_append]
      simp only [validateKeys, validateConfigFile, if_neg hk]
      rfl
  | cons q pre' ih =>
      intro h post
      have hq := h q (by simp)
      have hrest := ih (fun p hp => h p (by simp [hp])) post
      rw [List.cons_append]
      simp only [validateKeys, validateConfigFile, if_pos hq, hrest]
      rfl

/-- C8: a config-file key matching no accepted parameter name of the run
command (its declared parameters minus `config` itself) makes the
callback raise — before any command logic — an error naming the offending
key and carrying the fuzzy-match suggestions drawn from the valid
parameter names; when every key matches, the validated mapping is
installed into the default map, where explicitly supplied command-line
flags override it and config keys supply the defaults otherwise. -/
theorem c8_config_file_validation (runParams : List String)
    (defaultMap config flags : List (String × Nat)) :
    (∀ pre k v post, config = pre ++ (k, v) :: post →
      (∀ p ∈ pre, p.1 ∈ runParams.erase "config") →
      k ∉ runParams.erase "config" →
      configFileCallback runParams defaultMap config =
        .error ("Key `" ++ k ++ "` in provided configuration is not valid. " ++
          suggestCliCommand k (runParams.erase "config"))) ∧
    ((∀ p ∈ config, p.1 ∈ runParams.erase "config") →
      configFileCallback runParams defaultMap config =
        .ok (dictUpdate defaultMap config) ∧
      (∀ name v, flags.lookup name = some v →
        paramValue flags (dictUpdate defaultMap config) name = some v) ∧
      (∀ name, flags.lookup name = none → name ∈ config.map Prod.fst →
        paramValue flags (dictUpdate defaultMap config) name =
          config.lookup name)) := by
  constructor
  · intro pre k v post hcfg hpre hk
    subst hcfg
    simp only [configFileCallback,
      validateKeys_error runParams k v hk pre hpre post]
    rfl
  · intro hall
    refine ⟨?_, ?_, ?_⟩
    · simp only [configFileCallback, validateKeys_ok runParams config hall]
      rfl
    · intro name v hv
      simp [paramValue, hv]
    · intro name hnone hmem
      simp [paramValue, hnone, Option.orElse]
      exact dictUpdate_lookup defaultMap config name hmem

/-- C8 witness: the spec's own example — `bogus_key` against a run command
accepting `env`/`pipeline` aborts with the descriptive suggestion-carrying
error. -/
theorem c8_config_file_validation_witness :
    configFileCallback ["config", "env", "pipeline"] []
        [("env", 1), ("bogus_key", 2)] =
      .error ("Key `bogus_key` in provided configuration is not valid. " ++
        suggestCliCommand "bogus_key"
          (["config", "env", "pipeline"].erase "config")) :=
  (c8_config_file_validation ["config", "env", "pipeline"] []
      [("env", 1), ("bogus_key", 2)] []).1
    [("env", 1)] "bogus_key" 2 [] rfl (by decide) (by decide)

/-- The Boolean float comparison agrees with the rational values. -/
theorem pyFloatLe_iff_val (x y : PyFloat) :
    pyFloatLe x y = true ↔ pyVal x ≤ pyVal y := by
  rw [pyFloatLe, decide_eq_true_eq, pyVal, pyVal]
  rw [div_le_div_iff₀ (by exact_mod_cast x.den_pos) (by exact_mod_cast y.den_pos)]
  exact_mod_cast Iff.rfl

/-- The strict Boolean float comparison agrees with the rational values. -/
theorem pyFloatLt_iff_val (x y : PyFloat) :
    pyFloatLt x y = true ↔ pyVal x < pyVal y := by
  rw [pyFloatLt, decide_eq_true_eq, pyVal, pyVal]
  rw [div_lt_div_iff₀ (by exact_mod_cast x.den_pos) (by exact_mod_cast y.den_pos)]
  exact_mod_cast Iff.rfl

/-- The Boolean float equality agrees with the rational values. -/
theorem pyFloatEqB_iff_val (x y : PyFloat) :
    pyFloatEqB x y = true ↔ pyVal x = pyVal y := by
  rw [pyFloatEqB, decide_eq_true_eq, pyVal, pyVal]
  rw [div_eq_div_iff (Nat.cast_ne_zero.mpr x.den_pos.ne') (Nat.cast_ne_zero.mpr y.den_pos.ne')]
  exact_mod_cast Iff.rfl

/-- Python tuple `>=` on `(float, str)` pairs, read at the value level. -/
theorem pairGeP_iff (p q : PyFloat × String) :
    PairGeP p q ↔
      (pyVal q.1 < pyVal p.1 ∨
        (pyVal p.1 = pyVal q.1 ∧ ¬ p.2.data < q.2.data)) := by
  unfold PairGeP pairGe
  rw [Bool.or_eq_true, Bool.and_eq_true]
  rw [pyFloatLt_iff_val, pyFloatEqB_iff_val]
  simp

instance instIsTotalPairGeP : IsTotal (PyFloat × String) PairGeP := by
  constructor
  intro p q
  rw [pairGeP_iff, pairGeP_iff]
  rcases lt_trichotomy (pyVal p.1) (pyVal q.1) with hv | hv | hv
  · exact Or.inr (Or.inl hv)
  · rcases lt_trichotomy p.2.data q.2.data with hs | hs | hs
    · exact Or.inr (Or.inr ⟨hv.symm, not_lt_of_lt hs⟩)
    · exact Or.inl (Or.inr ⟨hv, by rw [hs]; exact lt_irrefl _⟩)
    · exact Or.inl (Or.inr ⟨hv, not_lt_of_lt hs⟩)
  · exact Or.inl (Or.inl hv)

instance instIsTransPairGeP : IsTrans (PyFloat × String) PairGeP := by
  constructor
  intro p q r hpq hqr
  rw [pairGeP_iff] at hpq hqr ⊢
  rcases hpq with hpq | ⟨hpq, hs1⟩
  · rcases hqr with hqr | ⟨hqr, _⟩
    · exact Or.inl (lt_trans hqr hpq)
    · exact Or.inl (hqr ▸ hpq)
  · rcases hqr with hqr | ⟨hqr, hs2⟩
    · exact Or.inl (hpq ▸ hqr)
    · refine Or.inr ⟨hpq.trans hqr, ?_⟩
      intro hcontra
      have hq : q.2.data ≤ p.2.data := not_lt.mp hs1
      have hr : r.2.data ≤ q.2.data := not_lt.mp hs2
      exact absurd hcontra (not_lt.mpr (le_trans hr hq))

/-- Joining a single string is that string. -/
theorem intercalate_single (s a : String) : String.intercalate s [a] = a := by
  simp [String.intercalate, String.intercalate.go]

/-- C7 (amended): the fuzzy suggester returns at most 3 candidates, each
drawn from the caller's candidates with similarity ratio at least the 0.5
cutoff, ranked by descending similarity with ties broken by **descending
lexicographic order of the candidate string** (Python's reverse tuple
sort; exact duplicates keep caller order) — not by caller-supplied order;
the output is empty exactly when no candidate clears the cutoff; for one
match the singular header `Did you mean this?` is emitted with the
indented candidate **on the same line** (no newline after the header);
for 2–3 matches the plural header is followed by each candidate indented
on its own line; `suggest("buid", ["build","run","test"])` mentions
`build` and neither `run` nor `test`, and `suggest("xyz123", ["build"])`
is the empty string. -/
theorem c7_amended_fuzzy (typed : String) (cands : List String) :
    (getCloseMatches typed cands MAX_SUGGESTIONS CUTOFF).length ≤ 3 ∧
    (∀ m ∈ getCloseMatches typed cands MAX_SUGGESTIONS CUTOFF,
      m ∈ cands ∧ (1 : ℚ)/2 ≤ pyVal (ratioP m typed)) ∧
    List.Pairwise
      (fun m1 m2 => PairGeP (ratioP m1 typed, m1) (ratioP m2 typed, m2))
      (getCloseMatches typed cands MAX_SUGGESTIONS CUTOFF) ∧
    (suggestCliCommand typed cands = "" ↔
      getCloseMatches typed cands MAX_SUGGESTIONS CUTOFF = []) ∧
    (∀ m, getCloseMatches typed cands MAX_SUGGESTIONS CUTOFF = [m] →
      suggestCliCommand typed cands =
        "\n\nDid you mean this?" ++ pyIndent m "    ") ∧
    (2 ≤ (getCloseMatches typed cands MAX_SUGGESTIONS CUTOFF).length →
      suggestCliCommand typed cands =
        "\n\nDid you mean one of these?\n" ++
          pyIndent (String.intercalate "\n"
            (getCloseMatches typed cands MAX_SUGGESTIONS CUTOFF)) "    ") ∧
    ("build".data <:+: (suggestCliCommand "buid" ["build", "run", "test"]).data ∧
      ¬ "run".data <:+: (suggestCliCommand "buid" ["build", "run", "test"]).data ∧
      ¬ "test".data <:+: (suggestCliCommand "buid" ["build", "run", "test"]).data) ∧
    suggestCliCommand "xyz123" ["build"] = "" := by
  have hchar : ∀ pr ∈ (cands.filterMap fun x =>
      if pyFloatLe CUTOFF (realQuickRatioP x typed) ∧
          pyFloatLe CUTOFF (quickRatioP x typed) ∧
          pyFloatLe CUTOFF (ratioP x typed) then
        some (ratioP x typed, x)
      else none),
      pr = (ratioP pr.2 typed, pr.2) ∧ pr.2 ∈ cands ∧
        pyFloatLe CUTOFF (ratioP pr.2 typed) = true := by
    intro pr hpr
    rw [List.mem_filterMap] at hpr
    obtain ⟨x, hx, hifx⟩ := hpr
    split_ifs at hifx with hc
    cases Option.some.inj hifx
    exact ⟨rfl, hx, hc.2.2⟩
  have hmemL : ∀ m ∈ getCloseMatches typed cands MAX_SUGGESTIONS CUTOFF,
      m ∈ cands ∧ (1 : ℚ)/2 ≤ pyVal (ratioP m typed) := by
    intro m hm
    rw [getCloseMatches, List.mem_map] at hm
    obtain ⟨pr, hpr, hprm⟩ := hm
    have hpr' := List.mem_of_mem_take hpr
    rw [List.mem_insertionSort] at hpr'
    obtain ⟨_, hmem, hle⟩ := hchar pr hpr'
    subst hprm
    refine ⟨hmem, ?_⟩
    have := (pyFloatLe_iff_val CUTOFF (ratioP pr.2 typed)).mp hle
    have hval : pyVal CUTOFF = (1 : ℚ)/2 := by
      norm_num [pyVal, CUTOFF]
    rwa [hval] at this
  refine ⟨?_, hmemL, ?_, ?_, ?_, ?_, by decide, by decide⟩
  · rw [getCloseMatches, List.length_map, List.length_take]
    exact le_trans (min_le_left _ _) (le_refl 3)
  · rw [getCloseMatches, List.pairwise_map]
    have hsorted := List.sorted_insertionSort PairGeP
      (cands.filterMap fun x =>
        if pyFloatLe CUTOFF (realQuickRatioP x typed) ∧
            pyFloatLe CUTOFF (quickRatioP x typed) ∧
            pyFloatLe CUTOFF (ratioP x typed) then
          some (ratioP x typed, x)
        else none)
    have htake := List.Pairwise.sublist (List.take_sublist MAX_SUGGESTIONS _) hsorted
    refine htake.imp_of_mem ?_
    intro a b ha hb hab
    have ha' := (hchar a (by
      have := List.mem_of_mem_take ha
      rwa [List.mem_insertionSort] at this)).1
    have hb' := (hchar b (by
      have := List.mem_of_mem_take hb
      rwa [List.mem_insertionSort] at this)).1
    rw [← ha', ← hb']
    exact hab
  · constructor
    · intro hs
      by_contra hne
      obtain ⟨m, rest, hL⟩ := List.exists_cons_of_ne_nil hne
      rw [suggestCliCommand, hL] at hs
      simp only [List.isEmpty_cons] at hs
      rw [if_neg (by simp)] at hs
      have hdata := congrArg String.data hs
      rw [String.data_append] at hdata
      split at hdata <;> simp at hdata
    · intro hL
      rw [suggestCliCommand, hL]
      rfl
  · intro m hL
    rw [suggestCliCommand, hL]
    simp [intercalate_single]
  · intro hlen
    have hne : getCloseMatches typed cands MAX_SUGGESTIONS CUTOFF ≠ [] := by
      intro hcontra
      rw [hcontra] at hlen
      simp at hlen
    have hlen1 : (getCloseMatches typed cands MAX_SUGGESTIONS CUTOFF).length ≠ 1 := by
      omega
    rw [suggestCliCommand]
    simp [List.isEmpty_iff, hne, hlen1]

/-- C7 (counterexample): with equal ratios, `abcy` is suggested before
`abcx` although the caller supplied `abcx` first (ties are broken by
Python's reverse tuple sort, not caller order); and the single-match
output places the candidate on the same line as the singular header, not
on its own line. -/
theorem c7_counterexample_tie_and_singular :
    suggestCliCommand "abc" ["abcx", "abcy"] =
      "\n\nDid you mean one of these?\n    abcy\n    abcx" ∧
    suggestCliCommand "abc" ["abcx", "abcy"] ≠
      "\n\nDid you mean one of these?\n    abcx\n    abcy" ∧
    suggestCliCommand "buid" ["build", "run", "test"] =
      "\n\nDid you mean this?    build" ∧
    ¬ "this?\n".data <:+: (suggestCliCommand "buid" ["build", "run", "test"]).data := by
  decide

/-- C7 witness: the amended properties applied to the claim's own example
input. -/
theorem c7_amended_fuzzy_witness :
    "build" ∈ ["build", "run", "test"] ∧
      (1 : ℚ)/2 ≤ pyVal (ratioP "build" "buid") :=
  (c7_amended_fuzzy "buid" ["build", "run", "test"]).2.1 "build" (by decide)
